import Mathlib

/-!
Verification of the screwdriver-cd/log-service log-shipping sidecar against
its natural-language specification.  The Go sources are shallowly embedded:
pure data manipulation becomes Lean functions, stateful code becomes explicit
state passing, and the effectful collaborators (the uploader, the file system,
the Screwdriver API) become explicit oracles passed as arguments.  Go strings
are modelled as Lean `String`s, with Go `len`/byte slicing read as character
counts (exact for the single-byte data the program handles).
-/

namespace LogService

/-! ## Data model (logservice.go, stepsaver.go, logfile.go) -/

/-- `logLine` (stepsaver.go): a record coming from the launcher, JSON fields
`t` (timestamp), `m` (message), `s` (step name). -/
structure logLine where
  Time : Int
  Message : String
  Step : String
deriving Repr, DecidableEq

/-- `maxLineSize` (logservice.go): the maximum stored message length. -/
def maxLineSize : Nat := 5000

/-- `storedLogLine`: the persisted form of a record.  The field set is the one
required by `stepSaver.WriteLog` (stepsaver.go), whose composite literal sets
`Time`, `Message`, `Line` and `StepName`; the serialization tests
(`TestWriteLogLong`, `TestWriteLogTruncate`) show the JSON keys `t`, `m`, `n`
and `s`.  (An older revision of the `storedLogLine` declaration lacks the
`StepName` field; the `WriteLog` path in the current stepsaver.go requires it.) -/
structure storedLogLine where
  Time : Int
  Message : String
  Line : Nat
  StepName : String
deriving Repr, DecidableEq

/-- The truncation applied by `stepSaver.WriteLog` (stepsaver.go lines 84-89):
messages longer than `maxLineSize` are cut to their first `maxLineSize`
characters and annotated with the Sprintf suffix. -/
def goTruncate (m : String) : String :=
  if m.length > maxLineSize then
    String.mk (m.toList.take maxLineSize) ++
      " [line truncated after " ++ toString maxLineSize ++ " characters]"
  else m

/-- The record constructed by `stepSaver.WriteLog` before encoding: the
timestamp and (truncated) message of the input line, the step's current
`lineCount` as the sequence number, and the step name. -/
def writeLogStored (lineCount : Nat) (l : logLine) : storedLogLine :=
  { Time := l.Time
    Message := goTruncate l.Message
    Line := lineCount
    StepName := l.Step }

/-- JSON string escaping as performed by Go `encoding/json` for the characters
that can occur in this program's data (quote, backslash, the common control
characters, and the HTML-escaped `<`, `>`, `&`).  Other characters pass
through unchanged. -/
def jsonEscapeChar (c : Char) : String :=
  if c = '"' then "\\\""
  else if c = '\\' then "\\\\"
  else if c = '\n' then "\\n"
  else if c = '\r' then "\\r"
  else if c = '\t' then "\\t"
  else if c = '<' then "\\u003c"
  else if c = '>' then "\\u003e"
  else if c = '&' then "\\u0026"
  else String.singleton c

/-- Escape a whole string as Go `encoding/json` does. -/
def jsonEscape (s : String) : String :=
  s.toList.foldl (fun acc c => acc ++ jsonEscapeChar c) ""

/-- The bytes produced by one `json.Encoder.Encode(storedLine)` call in
`stepSaver.WriteLog`: the compact JSON object for the `storedLogLine` field
set (keys `t`, `m`, `n`, `s` per the struct tags exercised by the tests),
followed by the encoder's newline.  The encoder performs exactly one `Write`
call per `Encode`. -/
def encodeStoredLogLine (r : storedLogLine) : String :=
  "\x7b\"t\":" ++ toString r.Time ++
  ",\"m\":\"" ++ jsonEscape r.Message ++
  "\",\"n\":" ++ toString r.Line ++
  ",\"s\":\"" ++ jsonEscape r.StepName ++ "\"\x7d\n"

/-- The stored-line serialization as the specification words it
(spec section 6, "Stored chunk format"): a newline-delimited JSON object with
exactly the three keys `t`, `m`, `n` and no step-name field.  This definition
follows the spec text and exists only to be compared with
`encodeStoredLogLine`, which follows the source. -/
def specEncodeStoredLine (r : storedLogLine) : String :=
  "\x7b\"t\":" ++ toString r.Time ++
  ",\"m\":\"" ++ jsonEscape r.Message ++
  "\",\"n\":" ++ toString r.Line ++ "\x7d\n"

/-- Substring helper: does the first list start the second? -/
def leadsWith : List Char → List Char → Bool
  | [], _ => true
  | _ :: _, [] => false
  | a :: as, b :: bs => a = b && leadsWith as bs

/-- Substring helper: does `needle` occur contiguously inside `hay`? -/
def occursIn (needle : List Char) : List Char → Bool
  | [] => leadsWith needle []
  | c :: rest => leadsWith needle (c :: rest) || occursIn needle rest

/-- String-level wrapper for `occursIn`. -/
def strOccursIn (needle hay : String) : Bool :=
  occursIn needle.toList hay.toList

/-! ## Chunk state (logfile.go)

A `logFile` owns a temp file plus two counters.  Uploads and file writes are
effectful, so their outcomes enter the model as explicit `Bool` arguments
(`true` = the operation succeeded). -/

/-- The mutable state of one `logFile` (logfile.go): `lineCount` lines written
to the backing temp file, `savedLineCount` of them known uploaded, and whether
`Close` has already released the file (`file == nil`). -/
structure LogFileSt where
  lineCount : Nat := 0
  savedLineCount : Nat := 0
  closed : Bool := false
deriving Repr, DecidableEq

/-- A fresh chunk as built by `newLogFile`: both counters zero, file open. -/
def newLogFileSt : LogFileSt := {}

/-- `logFile.Save` (logfile.go lines 46-61): no-op when
`lineCount == savedLineCount`; otherwise one `uploader.Upload` call, whose
outcome is `uploadOk`; on success `savedLineCount` is set to `lineCount`.
Returns the new state, the number of upload calls made (0 or 1), and whether
an error was returned. -/
def logFileSave (st : LogFileSt) (uploadOk : Bool) : LogFileSt × Nat × Bool :=
  if st.lineCount = st.savedLineCount then (st, 0, false)
  else if uploadOk then ({ st with savedLineCount := st.lineCount }, 1, false)
  else (st, 1, true)

/-- `logFile.Write` (logfile.go lines 64-73): writes to the temp file and
increments `lineCount` only when the file write succeeded (`writeOk`). -/
def logFileWrite (st : LogFileSt) (writeOk : Bool) : LogFileSt :=
  if writeOk then { st with lineCount := st.lineCount + 1 } else st

/-- `logFile.Close` (logfile.go lines 76-93): idempotent release of the
backing file; the counters are untouched. -/
def logFileClose (st : LogFileSt) : LogFileSt :=
  { st with closed := true }

/-- One operation applied to a chunk, with the outcome of its effect. -/
inductive ChunkOp where
  | write (writeOk : Bool)
  | save (uploadOk : Bool)
  | close
deriving Repr, DecidableEq

/-- Apply one `ChunkOp` to a chunk state. -/
def applyChunkOp (st : LogFileSt) : ChunkOp → LogFileSt
  | .write ok => logFileWrite st ok
  | .save ok => (logFileSave st ok).1
  | .close => logFileClose st

/-- Run a sequence of chunk operations from a fresh chunk. -/
def runChunkOps (ops : List ChunkOp) : LogFileSt :=
  ops.foldl applyChunkOp newLogFileSt

/-! ## StepSaver final flush and close (stepsaver.go)

`stepSaver.Save` flushes every chunk, logging and swallowing individual upload
failures; it always returns nil.  `stepSaver.Close` stops the ticker, runs
`Save`, closes every chunk, then reports the final line count.  Upload, file
close, and API outcomes are oracles indexed by chunk position. -/

/-- The outcome of `stepSaver.Save` (stepsaver.go lines 154-170): the updated
chunks, the total number of `Upload` calls made, the number of those that
failed (each merely logged), and the returned error.  The source returns `nil`
unconditionally, so the error component is always `none`. -/
def stepSaverSave (uploadOk : Nat → Bool) (files : List LogFileSt) :
    List LogFileSt × Nat × Nat × Option String :=
  let results := files.enum.map fun p => logFileSave p.2 (uploadOk p.1)
  (results.map (·.1),
   (results.map (fun r => r.2.1)).sum,
   (results.filter (fun r => r.2.2)).length,
   none)

/-- Close every chunk in order, stopping at the first `logFile.Close` error
(stepsaver.go lines 57-61).  `closeOk i` is the outcome of closing chunk `i`.
Returns the chunk states after the loop and the first error, if any. -/
def closeAllFiles (closeOk : Nat → Bool) : Nat → List LogFileSt → List LogFileSt × Option String
  | _, [] => ([], none)
  | i, f :: fs =>
    if closeOk i then
      let rest := closeAllFiles closeOk (i + 1) fs
      (logFileClose f :: rest.1, rest.2)
    else (f :: fs, some ("closing log file " ++ toString i))

/-- `stepSaver.Close` (stepsaver.go lines 50-72): stop the ticker, run `Save`
(whose error — always nil — would be wrapped and returned), close every chunk
stopping at the first failure, then call `UpdateStepLines` (outcome `apiOk`).
Returns the final chunk states and the error `Close` returns. -/
def stepSaverClose (uploadOk closeOk : Nat → Bool) (apiOk : Bool)
    (files : List LogFileSt) : List LogFileSt × Option String :=
  let saved := stepSaverSave uploadOk files
  match saved.2.2.2 with
  | some e => (saved.1, some ("saving on stepSaver Close: " ++ e))
  | none =>
    let closedRes := closeAllFiles closeOk 0 saved.1
    match closedRes.2 with
    | some e => (closedRes.1, some e)
    | none =>
      if apiOk then (closedRes.1, none)
      else (closedRes.1, some "Updating step meta lines: api error")

/-! ## StepSaver write path and chunk rotation (stepsaver.go lines 98-151)

For rotation and content placement the relevant chunk state is its
destination path and the sequence of byte strings written to it (one string
per `Write` call, since `json.Encoder.Encode` issues exactly one `Write`).
File-system and upload effects always succeed in this model; the
rotation-triggered background `Save` of the previous chunk is recorded in
`pendingSaves`. -/

/-- A chunk as seen by the rotation logic: its store path and the payloads
written to its backing file, in order. -/
structure ChunkFile where
  storePath : String
  content : List String
deriving Repr, DecidableEq

/-- The part of the `stepSaver` state used by `Write`. -/
structure StepSaverSt where
  lineCount : Nat := 0
  files : List ChunkFile := []
  pendingSaves : List Nat := []
deriving Repr, DecidableEq

/-- Replace the element at position `i` (no-op when out of range). -/
def updateAt (i : Nat) (g : α → α) : List α → List α
  | [] => []
  | a :: as =>
    match i with
    | 0 => g a :: as
    | j + 1 => a :: updateAt j g as

/-- Go `path.Join` on two nonempty, already-clean segments. -/
def pathJoin (a b : String) : String := a ++ "/" ++ b

/-- `stepSaver.Write` (stepsaver.go lines 118-151): select
`fileNum = lineCount / linesPerFile`; if `fileNum` reaches the number of
existing chunks, schedule a background save of the previous chunk and create
chunk `fileNum` with path `path.Join(stepName, "log.<fileNum>")`; append `p`
to chunk `fileNum`; finally (by `defer`) increment `lineCount`. -/
def stepSaverWriteRaw (L : Nat) (name : String) (st : StepSaverSt) (p : String) :
    StepSaverSt :=
  let fileNum := st.lineCount / L
  let st1 :=
    if st.files.length ≤ fileNum then
      { st with
        files := st.files ++ [⟨pathJoin name ("log." ++ toString fileNum), []⟩]
        pendingSaves :=
          if 0 < fileNum then st.pendingSaves ++ [fileNum - 1] else st.pendingSaves }
    else st
  { st1 with
    files := updateAt fileNum (fun f => { f with content := f.content ++ [p] }) st1.files
    lineCount := st.lineCount + 1 }

/-- `stepSaver.WriteLog` (stepsaver.go lines 76-95) feeding `Write` through the
JSON encoder: one encoded stored line is appended through the rotation logic. -/
def stepSaverWriteLog (L : Nat) (name : String) (st : StepSaverSt) (l : logLine) :
    StepSaverSt :=
  stepSaverWriteRaw L name st (encodeStoredLogLine (writeLogStored st.lineCount l))

/-- Run a sequence of raw writes from a fresh `stepSaver`. -/
def runRaw (L : Nat) (name : String) (ps : List String) : StepSaverSt :=
  ps.foldl (stepSaverWriteRaw L name) {}

/-- Run a sequence of `WriteLog` calls from a fresh `stepSaver`. -/
def runStepSaver (L : Nat) (name : String) (rs : List logLine) : StepSaverSt :=
  rs.foldl (stepSaverWriteLog L name) {}

/-- The serialized form of each record of a stream, paired with its per-step
sequence number (its position in the stream). -/
def encodedRecords (rs : List logLine) : List String :=
  (List.range rs.length).map fun k =>
    encodeStoredLogLine (writeLogStored k (rs.getD k ⟨0, "", ""⟩))

/-- `ceil(n / L)`, the number of chunks for `n` stored lines. -/
def chunkCount (L n : Nat) : Nat := (n + L - 1) / L

/-- The closed form of the chunk list after the payloads `stored` have been
written: chunk `i` has path `log.<i>` under the step name and holds the
payloads at positions `[i*L, min((i+1)*L, n))`. -/
def expectedFiles (L : Nat) (name : String) (stored : List String) : List ChunkFile :=
  (List.range (chunkCount L stored.length)).map fun i =>
    ⟨pathJoin name ("log." ++ toString i), (stored.drop (i * L)).take L⟩

/-! ## Dispatcher (logservice.go lines 190-266)

`ArchiveLogs` reads newline-delimited JSON records.  A line that fails to
decode is modelled as `none`.  StepSavers are identified by their step name;
the outcome of a StepSaver's `Close` is the oracle `closeFails`.  The model
records which savers were created, the target of every `WriteLog` call
(`none` = the nil StepSaver), and the background close errors that were
logged. -/

/-- The dispatcher state inside `ArchiveLogs`'s loop. -/
structure DispSt where
  lastStep : String := ""
  active : Option String := none
  created : List String := []
  writes : List (logLine × Option String) := []
  logged : List String := []
deriving Repr, DecidableEq

/-- `safeClose` (logservice.go lines 191-197): closing a nil StepSaver returns
nil; otherwise the saver's `Close` outcome decides the error. -/
def safeCloseResult (closeFails : String → Bool) : Option String → Option String
  | none => none
  | some s =>
    if closeFails s then some ("step " ++ s ++ " encountered errors on final save")
    else none

/-- One iteration of `ArchiveLogs`'s loop body for a decoded record
(logservice.go lines 237-254): on a step change, the previous StepSaver is
closed in the background (its error only logged) and a new one is created;
then the record is forwarded to the active StepSaver. -/
def dispatchRecord (closeFails : String → Bool) (st : DispSt) (r : logLine) : DispSt :=
  let st1 :=
    if r.Step ≠ st.lastStep then
      { st with
        logged :=
          match safeCloseResult closeFails st.active with
          | some e => st.logged ++ [e]
          | none => st.logged
        active := some r.Step
        created := st.created ++ [r.Step]
        lastStep := r.Step }
    else st
  { st1 with writes := st1.writes ++ [(r, st1.active)] }

/-- `ArchiveLogs` (logservice.go lines 218-266) from a given loop state: an
undecodable line aborts with an unmarshal error; at clean EOF the final
StepSaver is closed synchronously with `safeClose(stepSaver)` and the result
is discarded, the drain barrier is joined, and nil is returned. -/
def archiveLogsFrom (closeFails : String → Bool) (st : DispSt) :
    List (Option logLine) → DispSt × Option String
  | [] => (st, none)
  | none :: _ => (st, some "unmarshaling log line")
  | some r :: rest => archiveLogsFrom closeFails (dispatchRecord closeFails st r) rest

/-- `ArchiveLogs` on a whole input stream, from the initial state
(`lastStep` the empty string, no active StepSaver). -/
def archiveLogs (closeFails : String → Bool) (lines : List (Option logLine)) :
    DispSt × Option String :=
  archiveLogsFrom closeFails {} lines

/-! ## Local resume-diff uploader (sduploader/sdlocaluploader.go) -/

/-- `getLastLine`: the last non-empty line of the file, or `""` when there is
none. -/
def getLastLine (lines : List String) : String :=
  lines.foldl (fun acc line => if line.length > 0 then line else acc) ""

/-- The scanner loop of `sdLocalUploader.Upload`: once a source line equal to
`lastLine` has been seen (`matched` becomes true), every following line is
written to the output.  Returns the lines written and the final `matched`. -/
def scanAppend (lastLine : String) (matched : Bool) :
    List String → List String × Bool
  | [] => ([], matched)
  | l :: ls =>
    if matched then
      let r := scanAppend lastLine true ls
      (l :: r.1, r.2)
    else if l = lastLine then scanAppend lastLine true ls
    else scanAppend lastLine false ls

/-- `sdLocalUploader.Upload` at the line level: when the destination has a
last non-empty line, run the scanner; if nothing matched (or the destination
had no last line), append the entire source instead. -/
def sdLocalUpload (dest src : List String) : List String :=
  let lastLine := getLastLine dest
  let res :=
    if lastLine.length > 0 then scanAppend lastLine false src else ([], false)
  if res.2 then dest ++ res.1 else dest ++ src

/-! ## Network store uploader retry (sduploader/sdstoreuploader.go) -/

/-- Modelled from the spec: the bounded-retry engine of the network uploader.
`sduploader.NewStoreUploader` configures a `hashicorp/go-retryablehttp` client
with `RetryMax = maxRetries`; that library's retry loop is not part of this
repository.  Per spec section 4.4, any non-2xx response is retryable up
through the attempt budget (the initial attempt plus `RetryMax` retries), and
exhausting retries yields a descriptive error.  The repository's own
`TestFileUploadRetry` pins these semantics: `RetryMax = 2` against a
constant-500 server makes exactly 3 calls and returns a non-nil error.
`respond i` is the HTTP status of call number `i`; the result is the number
of calls made and whether the last one succeeded. -/
def retryAttempts (respond : Nat → Nat) : Nat → Nat → Nat × Bool
  | made, 0 => if respond made / 100 = 2 then (made + 1, true) else (made + 1, false)
  | made, rem + 1 =>
    if respond made / 100 = 2 then (made + 1, true)
    else retryAttempts respond (made + 1) rem

/-- `sdStoreUploader.Upload` under the modelled retry engine: the destination
URL is `makeURL` of sdstoreuploader.go (`path.Join(u.Path, "v1", "builds",
buildID, storePath)` on clean segments); on exhausted retries the error names
the URL (hence the destination path) and the attempt count. -/
def storeUpload (urlBase buildID : String) (retryMax : Nat) (respond : Nat → Nat)
    (storePath : String) : Nat × Option String :=
  let u := urlBase ++ "/v1/builds/" ++ buildID ++ "/" ++ storePath
  let r := retryAttempts respond 0 retryMax
  if r.2 then (r.1, none)
  else (r.1, some ("PUT " ++ u ++ " giving up after " ++ toString r.1 ++ " attempts"))

/-! ## Theorems -/

/-- Helper: one chunk operation preserves `savedLineCount ≤ lineCount`. -/
theorem applyChunkOp_counters (st : LogFileSt) (op : ChunkOp)
    (h : st.savedLineCount ≤ st.lineCount) :
    (applyChunkOp st op).savedLineCount ≤ (applyChunkOp st op).lineCount := by
  cases op with
  | write ok =>
    simp only [applyChunkOp, logFileWrite]
    split
    · exact Nat.le_succ_of_le h
    · exact h
  | save ok =>
    simp only [applyChunkOp, logFileSave]
    split
    · exact h
    · split <;> simp [h]
  | close => exact h

/-- Helper: the invariant holds along any chunk-operation trace. -/
theorem foldl_chunkOps_counters (ops : List ChunkOp) :
    ∀ st : LogFileSt, st.savedLineCount ≤ st.lineCount →
      (ops.foldl applyChunkOp st).savedLineCount ≤ (ops.foldl applyChunkOp st).lineCount := by
  induction ops with
  | nil => intro st h; exact h
  | cons op rest ih =>
    intro st h
    exact ih (applyChunkOp st op) (applyChunkOp_counters st op h)

/-- C9: for every chunk, `totalLines >= savedLines` holds in every state
reachable by any sequence of `write` (succeeding or failing), `save` (with
succeeding or failing uploads) and `close` operations from a fresh chunk with
both counters zero. -/
theorem chunk_counter_invariant (ops : List ChunkOp) :
    (runChunkOps ops).savedLineCount ≤ (runChunkOps ops).lineCount :=
  foldl_chunkOps_counters ops newLogFileSt (Nat.le_refl 0)

/-- C8: chunk `save()` is idempotent absent new writes: it is a no-op (no
upload call, no state change, no error) when `totalLines == savedLines`; a
save whose upload succeeds leaves `savedLines = totalLines`; and from a dirty
chunk, a successful save followed by another save performs exactly one upload
call in total. -/
theorem chunk_save_idempotent (st : LogFileSt) (ok2 : Bool) :
    (st.lineCount = st.savedLineCount → logFileSave st ok2 = (st, 0, false)) ∧
    (logFileSave st true).1.savedLineCount = (logFileSave st true).1.lineCount ∧
    (st.lineCount ≠ st.savedLineCount →
      (logFileSave st true).2.1 +
        (logFileSave (logFileSave st true).1 ok2).2.1 = 1) := by
  refine ⟨fun h => by simp [logFileSave, h], ?_, fun h => ?_⟩
  · simp only [logFileSave]
    split
    · next heq => simpa using heq.symm
    · simp
  · simp [logFileSave, h]

/-- Witness for C8 at a concrete dirty chunk: one line written, none saved;
a successful save then a second save make exactly one upload call. -/
theorem chunk_save_idempotent_witness :
    (1 : Nat) ≠ 0 ∧
    (logFileSave ⟨1, 0, false⟩ true).2.1 +
      (logFileSave (logFileSave ⟨1, 0, false⟩ true).1 true).2.1 = 1 :=
  ⟨by decide, (chunk_save_idempotent ⟨1, 0, false⟩ true).2.2 (by decide)⟩

/-- C7: a message of length at most `maxLineSize` is stored verbatim; a
message of length `maxLineSize + k` with `k ≥ 1` is stored as its first
`maxLineSize` characters followed by the exact suffix
`" [line truncated after 5000 characters]"`. -/
theorem writeLog_truncation (l : logLine) (lc : Nat) :
    (l.Message.length ≤ maxLineSize → (writeLogStored lc l).Message = l.Message) ∧
    (∀ k, 1 ≤ k → l.Message.length = maxLineSize + k →
      (writeLogStored lc l).Message =
        String.mk (l.Message.toList.take maxLineSize) ++
          " [line truncated after " ++ toString maxLineSize ++ " characters]") := by
  constructor
  · intro h
    simp [writeLogStored, goTruncate, Nat.not_lt.mpr h]
  · intro k hk hlen
    have : l.Message.length > maxLineSize := by omega
    simp [writeLogStored, goTruncate, this]

/-- Witness for C7: a 3-character message is stored verbatim, and a
`maxLineSize + 1`-character message is truncated with the exact suffix. -/
theorem writeLog_truncation_witness :
    ("abc" : String).length ≤ maxLineSize ∧
    (writeLogStored 0 ⟨0, "abc", "s"⟩).Message = "abc" ∧
    (1 : Nat) ≤ 1 ∧
    (String.mk (List.replicate (maxLineSize + 1) 'a')).length = maxLineSize + 1 ∧
    (writeLogStored 0 ⟨0, String.mk (List.replicate (maxLineSize + 1) 'a'), "s"⟩).Message =
      String.mk ((String.mk (List.replicate (maxLineSize + 1) 'a')).toList.take maxLineSize) ++
        " [line truncated after " ++ toString maxLineSize ++ " characters]" := by
  have hlen : (String.mk (List.replicate (maxLineSize + 1) 'a')).length = maxLineSize + 1 := by
    simp [String.length]
  refine ⟨by decide, ?_, by decide, hlen, ?_⟩
  · exact (writeLog_truncation ⟨0, "abc", "s"⟩ 0).1 (by decide)
  · exact (writeLog_truncation ⟨0, String.mk (List.replicate (maxLineSize + 1) 'a'), "s"⟩ 0).2
      1 (by decide) (by exact hlen)

/-- C5: with `RetryMax = 2` ("max attempts = 2") and a destination that always
answers with a 500-class status, `Upload` makes exactly 3 calls (the initial
attempt plus 2 retries) and returns a non-nil error naming the destination
URL and the attempt count. -/
theorem store_upload_retry (urlBase buildID storePath : String) (respond : Nat → Nat)
    (h : ∀ i, respond i / 100 = 5) :
    storeUpload urlBase buildID 2 respond storePath =
      (3, some ("PUT " ++ (urlBase ++ "/v1/builds/" ++ buildID ++ "/" ++ storePath) ++
        " giving up after " ++ toString (3 : Nat) ++ " attempts")) := by
  have h0 := h 0
  have h1 := h 1
  have h2 := h 2
  simp [storeUpload, retryAttempts, h0, h1, h2]

/-- Witness for C5 at a concrete constant-500 responder and destination. -/
theorem store_upload_retry_witness :
    storeUpload "http://store" "b1" 2 (fun _ => 500) "step0/log.0" =
      (3, some "PUT http://store/v1/builds/b1/step0/log.0 giving up after 3 attempts") := by
  rw [store_upload_retry "http://store" "b1" "step0/log.0" (fun _ => 500) (fun _ => by norm_num)]
  rfl

/-- Helper: the resume scanner finds no match when no source line equals the
target line. -/
theorem scanAppend_no_match (t : String) (src : List String)
    (h : ∀ l ∈ src, l ≠ t) : scanAppend t false src = ([], false) := by
  induction src with
  | nil => rfl
  | cons l ls ih =>
    have hl : l ≠ t := h l (List.mem_cons_self l ls)
    simp only [scanAppend, Bool.false_eq_true, if_false, if_neg hl]
    exact ih fun x hx => h x (List.mem_cons_of_mem l hx)

/-- Helper: once matched, the scanner emits every remaining line. -/
theorem scanAppend_matched (t : String) (src : List String) :
    scanAppend t true src = (src, true) := by
  induction src with
  | nil => rfl
  | cons l ls ih => simp [scanAppend, ih]

/-- C6: the local resume-diff upload appends only the not-yet-durable suffix:
with destination `[L0, L1]` and source `[L0, L1, L2, L3]` (for a non-empty
`L1` and `L0 ≠ L1`, so the first source line equal to the destination's last
non-empty line is the one at index 1), the destination becomes
`[L0, L1, L2, L3]`; an empty destination receives the whole source verbatim;
and when no source line matches the destination's last line the whole source
is appended. -/
theorem local_upload_resume (L0 L1 L2 L3 : String) (dest src : List String) :
    (L1.length ≠ 0 → L0 ≠ L1 →
      sdLocalUpload [L0, L1] [L0, L1, L2, L3] = [L0, L1, L2, L3]) ∧
    sdLocalUpload [] src = src ∧
    ((∀ l ∈ src, l ≠ getLastLine dest) → sdLocalUpload dest src = dest ++ src) := by
  refine ⟨fun h1 h2 => ?_, by simp [sdLocalUpload, getLastLine], fun h => ?_⟩
  · have hlast : getLastLine [L0, L1] = L1 := by
      simp [getLastLine, if_pos (Nat.pos_of_ne_zero h1)]
    simp [sdLocalUpload, hlast, Nat.pos_of_ne_zero h1, scanAppend, if_neg h2,
      scanAppend_matched]
  · by_cases hp : (getLastLine dest).length > 0
    · simp [sdLocalUpload, hp, scanAppend_no_match _ src h]
    · simp [sdLocalUpload, hp]

/-- Witness for C6 at concrete lines: resume appends only the suffix, an
empty destination gets the source verbatim, and a non-matching destination
gets the whole source appended. -/
theorem local_upload_resume_witness :
    sdLocalUpload ["a", "b"] ["a", "b", "c", "d"] = ["a", "b", "c", "d"] ∧
    sdLocalUpload [] ["a", "b"] = ["a", "b"] ∧
    sdLocalUpload ["x"] ["a", "b"] = ["x", "a", "b"] :=
  ⟨(local_upload_resume "a" "b" "c" "d" [] []).1 (by decide) (by decide),
   (local_upload_resume "" "" "" "" [] ["a", "b"]).2.1,
   (local_upload_resume "" "" "" "" ["x"] ["a", "b"]).2.2 (by decide)⟩

/-- Helper: the chunk-closing loop of `stepSaver.Close` succeeds exactly when
every chunk's file close succeeds. -/
theorem closeAllFiles_err (closeOk : Nat → Bool) :
    ∀ (fs : List LogFileSt) (j : Nat),
      ((closeAllFiles closeOk j fs).2 = none ↔
        ∀ i, i < fs.length → closeOk (j + i) = true) := by
  intro fs
  induction fs with
  | nil => intro j; simp [closeAllFiles]
  | cons f fs ih =>
    intro j
    by_cases hc : closeOk j = true
    · simp only [closeAllFiles, if_pos hc]
      rw [ih (j + 1)]
      constructor
      · intro h i hi
        cases i with
        | zero => simpa using hc
        | succ i2 =>
          have h2 := h i2 (Nat.lt_of_succ_lt_succ hi)
          have he : j + 1 + i2 = j + (i2 + 1) := by omega
          rwa [he] at h2
      · intro h i hi
        have h2 := h (i + 1) (Nat.succ_lt_succ hi)
        have he : j + (i + 1) = j + 1 + i := by omega
        rwa [he] at h2
    · simp only [closeAllFiles, if_neg hc]
      constructor
      · intro h; simp at h
      · intro h
        have h0 := h 0 (Nat.succ_pos fs.length)
        rw [Nat.add_zero] at h0
        exact absurd h0 hc

/-- Helper: `stepSaver.Save` does not change the number of chunks. -/
theorem stepSaverSave_length (uploadOk : Nat → Bool) (files : List LogFileSt) :
    (stepSaverSave uploadOk files).1.length = files.length := by
  simp [stepSaverSave]

/-- C1 (amended): `stepSaver.Close` performs the final flush, but `Save`
swallows every individual upload failure and always returns nil, so the
error returned by `Close` is decided only by the chunk file closes and the
final `UpdateStepLines` report — a failed upload during the final flush does
not make `Close` return an error. -/
theorem close_error_independent_of_uploads (uploadOk closeOk : Nat → Bool)
    (apiOk : Bool) (files : List LogFileSt) :
    (stepSaverSave uploadOk files).2.2.2 = none ∧
    ((stepSaverClose uploadOk closeOk apiOk files).2 = none ↔
      ((∀ i, i < files.length → closeOk i = true) ∧ apiOk = true)) := by
  refine ⟨rfl, ?_⟩
  show ((match (none : Option String) with
    | some e => ((stepSaverSave uploadOk files).1, some ("saving on stepSaver Close: " ++ e))
    | none =>
      let closedRes := closeAllFiles closeOk 0 (stepSaverSave uploadOk files).1
      match closedRes.2 with
      | some e => (closedRes.1, some e)
      | none =>
        if apiOk then (closedRes.1, none)
        else (closedRes.1, some "Updating step meta lines: api error")) : List LogFileSt × Option String).2 = none ↔ _
  have hclose := closeAllFiles_err closeOk (stepSaverSave uploadOk files).1 0
  rw [stepSaverSave_length uploadOk files] at hclose
  simp only [Nat.zero_add] at hclose
  cases hcl : (closeAllFiles closeOk 0 (stepSaverSave uploadOk files).1).2 with
  | none =>
    rw [hcl] at hclose
    simp only [hcl]
    cases apiOk with
    | true => simpa using hclose.mp rfl
    | false => simp
  | some e =>
    rw [hcl] at hclose
    simp only [hcl]
    constructor
    · intro h; simp at h
    · intro h
      have : (some e : Option String) = none := hclose.mpr h.1
      simp at this

/-- C1 counterexample: a single dirty chunk (one line written, none saved)
whose upload fails during the final flush inside `Close` — the flush makes
one failing upload call, yet `Close` returns nil because the file close and
the final report succeed. -/
theorem close_ignores_failed_upload :
    (stepSaverSave (fun _ => false) [⟨1, 0, false⟩]).2.2.1 = 1 ∧
    (stepSaverClose (fun _ => false) (fun _ => true) true [⟨1, 0, false⟩]).2 = none := by
  decide

/-- Helper: `ArchiveLogs` returns nil whenever every input line decodes,
whatever the close oracle says. -/
theorem archiveLogsFrom_ok (closeFails : String → Bool) :
    ∀ (lines : List (Option logLine)), (∀ x ∈ lines, x ≠ none) →
      ∀ st, (archiveLogsFrom closeFails st lines).2 = none := by
  intro lines
  induction lines with
  | nil => intro _ st; rfl
  | cons x rest ih =>
    intro h st
    cases x with
    | none => exact absurd rfl (h none (List.mem_cons_self none rest))
    | some r =>
      exact ih (fun y hy => h y (List.mem_cons_of_mem (some r) hy))
        (dispatchRecord closeFails st r)

/-- C2 (amended): at end-of-stream the result of the final synchronous
`safeClose(stepSaver)` is discarded, so `ArchiveLogs` returns nil on every
stream whose lines all decode, even when the final StepSaver's `Close` fails;
close errors of earlier steps are only logged along the way. -/
theorem archive_logs_ignores_close_errors (closeFails : String → Bool)
    (lines : List (Option logLine)) (h : ∀ x ∈ lines, x ≠ none) :
    (archiveLogs closeFails lines).2 = none :=
  archiveLogsFrom_ok closeFails lines h {}

/-- Witness for C2 (amended): a one-record stream under a close oracle that
fails every close still makes `ArchiveLogs` return nil. -/
theorem archive_logs_ignores_close_errors_witness :
    (archiveLogs (fun _ => true) [some ⟨0, "m", "step1"⟩]).2 = none :=
  archive_logs_ignores_close_errors (fun _ => true) [some ⟨0, "m", "step1"⟩] (by decide)

/-- C2 counterexample: the stream ends with the StepSaver for "step1" active
and its `Close` failing (the oracle reports failure for every step), yet
`ArchiveLogs` returns no error — the claim's demanded non-nil error does not
appear. -/
theorem archive_logs_final_close_error_dropped :
    (fun (_ : String) => true) "step1" = true ∧
    (archiveLogs (fun _ => true) [some ⟨0, "m", "step1"⟩]).1.active = some "step1" ∧
    (archiveLogs (fun _ => true) [some ⟨0, "m", "step1"⟩]).2 = none := by
  decide

/-- Helper: each dispatched record appends exactly one entry to the write
trace. -/
theorem dispatchRecord_writes (closeFails : String → Bool) (st : DispSt) (r : logLine) :
    ∃ x, (dispatchRecord closeFails st r).writes = st.writes ++ [x] := by
  unfold dispatchRecord
  split
  · exact ⟨_, rfl⟩
  · exact ⟨_, rfl⟩

/-- Helper: the dispatcher only ever appends to the write trace. -/
theorem archiveLogsFrom_writes (closeFails : String → Bool) :
    ∀ (lines : List (Option logLine)) (st : DispSt),
      ∃ t, ((archiveLogsFrom closeFails st lines).1).writes = st.writes ++ t := by
  intro lines
  induction lines with
  | nil => intro st; exact ⟨[], (List.append_nil _).symm⟩
  | cons x rest ih =>
    intro st
    cases x with
    | none => exact ⟨[], (List.append_nil _).symm⟩
    | some r =>
      obtain ⟨t, ht⟩ := ih (dispatchRecord closeFails st r)
      obtain ⟨w, hw⟩ := dispatchRecord_writes closeFails st r
      refine ⟨[w] ++ t, ?_⟩
      show ((archiveLogsFrom closeFails (dispatchRecord closeFails st r) rest).1).writes = _
      rw [ht, hw, List.append_assoc]

/-- C10: when the first record of the stream carries the empty step name, the
step-change test does not fire (the initial `lastStep` is already the empty
string), so no StepSaver is created for that record and the record is
forwarded to the nil StepSaver (write target `none`) instead of being
buffered for upload. -/
theorem empty_first_step_nil_saver (closeFails : String → Bool) (r : logLine)
    (rest : List (Option logLine)) (h : r.Step = "") :
    (dispatchRecord closeFails {} r).created = [] ∧
    (dispatchRecord closeFails {} r).active = none ∧
    ((archiveLogs closeFails (some r :: rest)).1).writes.head? = some (r, none) := by
  have hdr : dispatchRecord closeFails {} r =
      { ({} : DispSt) with writes := [(r, none)] } := by
    unfold dispatchRecord
    rw [if_neg (by rw [h]; exact fun hne => hne rfl)]
    rfl
  refine ⟨by rw [hdr], by rw [hdr], ?_⟩
  show ((archiveLogsFrom closeFails (dispatchRecord closeFails {} r) rest).1).writes.head? = _
  obtain ⟨t, ht⟩ := archiveLogsFrom_writes closeFails rest (dispatchRecord closeFails {} r)
  rw [ht, hdr]
  rfl

/-- Witness for C10 at a concrete one-record stream whose record has the
empty step name. -/
theorem empty_first_step_nil_saver_witness :
    (dispatchRecord (fun _ => false) {} ⟨0, "m", ""⟩).created = [] ∧
    (dispatchRecord (fun _ => false) {} ⟨0, "m", ""⟩).active = none ∧
    ((archiveLogs (fun _ => false) [some ⟨0, "m", ""⟩]).1).writes.head? =
      some (⟨0, "m", ""⟩, none) :=
  empty_first_step_nil_saver (fun _ => false) ⟨0, "m", ""⟩ [] rfl

/-! ### Rotation closed form -/

/-- Helper: `updateAt` on the appended singleton. -/
theorem updateAt_append (l : List α) (a : α) (g : α → α) (k : Nat) (h : k = l.length) :
    updateAt k g (l ++ [a]) = l ++ [g a] := by
  subst h
  induction l with
  | nil => rfl
  | cons b bs ih => simp [updateAt, ih]

/-- Helper: the ceiling division after one more line. -/
theorem chunkCount_succ (L n : Nat) (hL : 0 < L) : chunkCount L (n + 1) = n / L + 1 := by
  have h : n + 1 + L - 1 = n + L := by omega
  rw [chunkCount, h, Nat.add_div_right n hL]

/-- Helper: ceiling division agrees with flooring division on multiples. -/
theorem chunkCount_of_mod_eq_zero (L n : Nat) (hL : 0 < L) (h : n % L = 0) :
    chunkCount L n = n / L := by
  cases n with
  | zero =>
    have h0 : (L - 1) / L = 0 := Nat.div_eq_of_lt (by omega)
    simp [chunkCount, h0]
  | succ m =>
    rw [chunkCount_succ L m hL, Nat.succ_div,
      if_pos ((Nat.dvd_iff_mod_eq_zero).mpr h)]

/-- Helper: ceiling division exceeds flooring division off multiples. -/
theorem chunkCount_of_mod_ne_zero (L n : Nat) (hL : 0 < L) (h : n % L ≠ 0) :
    chunkCount L n = n / L + 1 := by
  cases n with
  | zero => exact absurd (Nat.zero_mod L) h
  | succ m =>
    rw [chunkCount_succ L m hL, Nat.succ_div,
      if_neg (fun hd => h ((Nat.dvd_iff_mod_eq_zero).mp hd))]

/-- Helper: a chunk whose interval is fully inside the old payload list is
unchanged by appending one payload. -/
theorem seg_frozen (L : Nat) (ps : List String) (p : String) (i : Nat)
    (h : (i + 1) * L ≤ ps.length) :
    ((ps ++ [p]).drop (i * L)).take L = (ps.drop (i * L)).take L := by
  have hiL : i * L ≤ ps.length :=
    le_trans (Nat.mul_le_mul_right L (Nat.le_succ i)) h
  rw [List.drop_append_of_le_length hiL]
  have h2 : L ≤ (ps.drop (i * L)).length := by
    rw [List.length_drop]
    have hexp : (i + 1) * L = i * L + L := Nat.succ_mul i L
    omega
  rw [List.take_append_of_le_length h2]

/-- Helper: the `files` component of one raw write, with the rotation `if`
exposed. -/
theorem stepSaverWriteRaw_files (L : Nat) (name : String) (st : StepSaverSt) (p : String) :
    (stepSaverWriteRaw L name st p).files =
      updateAt (st.lineCount / L)
        (fun f => { f with content := f.content ++ [p] })
        (if st.files.length ≤ st.lineCount / L then
          st.files ++ [⟨pathJoin name ("log." ++ toString (st.lineCount / L)), []⟩]
         else st.files) := by
  simp only [stepSaverWriteRaw]
  split <;> rfl

/-- Helper: a raw write advances `lineCount` by one. -/
theorem stepSaverWriteRaw_lineCount (L : Nat) (name : String) (st : StepSaverSt)
    (p : String) : (stepSaverWriteRaw L name st p).lineCount = st.lineCount + 1 := rfl

/-- Helper: folding one more raw write. -/
theorem runRaw_snoc (L : Nat) (name : String) (ps : List String) (p : String) :
    runRaw L name (ps ++ [p]) = stepSaverWriteRaw L name (runRaw L name ps) p := by
  simp [runRaw, List.foldl_append]

/-- Helper: the line counter counts the writes. -/
theorem runRaw_lineCount (L : Nat) (name : String) (ps : List String) :
    (runRaw L name ps).lineCount = ps.length := by
  induction ps using List.reverseRecOn with
  | nil => rfl
  | append_singleton ps p ih =>
    rw [runRaw_snoc, stepSaverWriteRaw_lineCount, ih]
    simp

/-- Helper: one raw write moves the closed form forward by one payload. -/
theorem writeRaw_files_step (L : Nat) (hL : 0 < L) (name : String) (ps : List String)
    (p : String) (st : StepSaverSt) (hc : st.lineCount = ps.length)
    (hf : st.files = expectedFiles L name ps) :
    (stepSaverWriteRaw L name st p).files = expectedFiles L name (ps ++ [p]) := by
  have hlen : (expectedFiles L name ps).length = chunkCount L ps.length := by
    simp [expectedFiles]
  have hsplitNew : expectedFiles L name (ps ++ [p]) =
      (List.range (ps.length / L)).map
        (fun i => (⟨pathJoin name ("log." ++ toString i),
          ((ps ++ [p]).drop (i * L)).take L⟩ : ChunkFile)) ++
      [⟨pathJoin name ("log." ++ toString (ps.length / L)),
        ((ps ++ [p]).drop (ps.length / L * L)).take L⟩] := by
    rw [expectedFiles]
    have hlen2 : (ps ++ [p]).length = ps.length + 1 := by simp
    rw [hlen2, chunkCount_succ L ps.length hL, List.range_succ, List.map_append]
    rfl
  have hfrozen : ∀ i ∈ List.range (ps.length / L),
      (⟨pathJoin name ("log." ++ toString i),
        ((ps ++ [p]).drop (i * L)).take L⟩ : ChunkFile) =
      ⟨pathJoin name ("log." ++ toString i), (ps.drop (i * L)).take L⟩ := by
    intro i hi
    have hi2 : (i + 1) * L ≤ ps.length :=
      (Nat.le_div_iff_mul_le hL).mp (List.mem_range.mp hi)
    rw [seg_frozen L ps p i hi2]
  rw [stepSaverWriteRaw_files, hc, hf, hlen, hsplitNew]
  by_cases hmod : ps.length % L = 0
  · -- the write opens a fresh chunk
    have hcc : chunkCount L ps.length = ps.length / L :=
      chunkCount_of_mod_eq_zero L ps.length hL hmod
    rw [hcc, if_pos (Nat.le_refl _)]
    have hl2 : ps.length / L = (expectedFiles L name ps).length := by
      rw [hlen, hcc]
    rw [updateAt_append _ _ _ _ hl2]
    have hlast : ((ps ++ [p]).drop (ps.length / L * L)).take L = [p] := by
      have hm : ps.length / L * L = ps.length :=
        Nat.div_mul_cancel ((Nat.dvd_iff_mod_eq_zero).mpr hmod)
      rw [hm, List.drop_append_of_le_length (Nat.le_refl _), List.drop_length]
      exact List.take_of_length_le (by simp; omega)
    rw [hlast, expectedFiles, hcc, List.map_congr_left hfrozen]
    rfl
  · -- the write lands in the still-open last chunk
    have hcc : chunkCount L ps.length = ps.length / L + 1 :=
      chunkCount_of_mod_ne_zero L ps.length hL hmod
    rw [hcc, if_neg (by omega)]
    have hsplitOld : expectedFiles L name ps =
        (List.range (ps.length / L)).map
          (fun i => (⟨pathJoin name ("log." ++ toString i),
            (ps.drop (i * L)).take L⟩ : ChunkFile)) ++
        [⟨pathJoin name ("log." ++ toString (ps.length / L)),
          (ps.drop (ps.length / L * L)).take L⟩] := by
      rw [expectedFiles, hcc, List.range_succ, List.map_append]
      rfl
    rw [hsplitOld, updateAt_append _ _ _ _ (by simp)]
    have hdm : L * (ps.length / L) + ps.length % L = ps.length := Nat.div_add_mod ps.length L
    have hq : ps.length / L * L + ps.length % L = ps.length := by
      rw [Nat.mul_comm] at hdm; exact hdm
    have hlt : ps.length % L < L := Nat.mod_lt ps.length hL
    have hlast : ((ps ++ [p]).drop (ps.length / L * L)).take L =
        (ps.drop (ps.length / L * L)).take L ++ [p] := by
      have hle : ps.length / L * L ≤ ps.length := Nat.div_mul_le_self ps.length L
      rw [List.drop_append_of_le_length hle]
      have hdl : (ps.drop (ps.length / L * L)).length = ps.length % L := by
        rw [List.length_drop]; omega
      have htk : (ps.drop (ps.length / L * L)).take L = ps.drop (ps.length / L * L) :=
        List.take_of_length_le (by omega)
      rw [htk]
      exact List.take_of_length_le (by simp [hdl]; omega)
    rw [hlast, List.map_congr_left hfrozen]

/-- Helper: the chunk list after any raw-write sequence has the closed form. -/
theorem runRaw_files (L : Nat) (hL : 0 < L) (name : String) (ps : List String) :
    (runRaw L name ps).files = expectedFiles L name ps := by
  induction ps using List.reverseRecOn with
  | nil =>
    have h0 : (L - 1) / L = 0 := Nat.div_eq_of_lt (by omega)
    simp [runRaw, expectedFiles, chunkCount, h0]
  | append_singleton ps p ih =>
    rw [runRaw_snoc]
    exact writeRaw_files_step L hL name ps p _ (runRaw_lineCount L name ps) ih

/-- Helper: the serialized payload list of one more record. -/
theorem encodedRecords_snoc (rs : List logLine) (r : logLine) :
    encodedRecords (rs ++ [r]) =
      encodedRecords rs ++ [encodeStoredLogLine (writeLogStored rs.length r)] := by
  have hlen : (rs ++ [r]).length = rs.length + 1 := by simp
  rw [encodedRecords, hlen, List.range_succ, List.map_append]
  have hmid : ∀ k ∈ List.range rs.length,
      encodeStoredLogLine (writeLogStored k ((rs ++ [r]).getD k ⟨0, "", ""⟩)) =
      encodeStoredLogLine (writeLogStored k (rs.getD k ⟨0, "", ""⟩)) := by
    intro k hk
    rw [List.getD_append _ _ _ _ (List.mem_range.mp hk)]
  rw [List.map_congr_left hmid, encodedRecords]
  have hlast : (rs ++ [r]).getD rs.length ⟨0, "", ""⟩ = r := by
    rw [List.getD_append_right _ _ _ _ (Nat.le_refl _)]
    simp
  simp [hlast]

/-- Helper: the `WriteLog` fold equals the raw fold over the serialized
records. -/
theorem runStepSaver_eq_runRaw (L : Nat) (name : String) (rs : List logLine) :
    runStepSaver L name rs = runRaw L name (encodedRecords rs) := by
  induction rs using List.reverseRecOn with
  | nil => rfl
  | append_singleton rs r ih =>
    have hsnoc : runStepSaver L name (rs ++ [r]) =
        stepSaverWriteLog L name (runStepSaver L name rs) r := by
      simp [runStepSaver, List.foldl_append]
    have hlen : (encodedRecords rs).length = rs.length := by simp [encodedRecords]
    rw [hsnoc, ih, encodedRecords_snoc, runRaw_snoc, stepSaverWriteLog,
      runRaw_lineCount, hlen]

/-- C4: writing N records to a StepSaver with `linesPerChunk = L ≥ 1` creates
exactly `ceil(N / L)` chunks; chunk `i` has destination path
`<stepName>/log.<i>` and holds exactly the serialized records with per-step
sequence numbers in `[i*L, min((i+1)*L, N))` — the segment
`((encodedRecords rs).drop (i*L)).take L` of the records listed by sequence
number.  (For `N = 0` no write happens and `ceil(0/L) = 0` chunks exist; the
claim's parenthetical "1 if N == 0 after at least one write" is vacuous since
every write increments N.) -/
theorem chunk_rotation (L : Nat) (name : String) (rs : List logLine) (hL : 0 < L) :
    (runStepSaver L name rs).files.length = (rs.length + L - 1) / L ∧
    (runStepSaver L name rs).files =
      (List.range ((rs.length + L - 1) / L)).map fun i =>
        ⟨pathJoin name ("log." ++ toString i),
          ((encodedRecords rs).drop (i * L)).take L⟩ := by
  have h1 : runStepSaver L name rs = runRaw L name (encodedRecords rs) :=
    runStepSaver_eq_runRaw L name rs
  have h2 := runRaw_files L hL name (encodedRecords rs)
  have h3 : (encodedRecords rs).length = rs.length := by simp [encodedRecords]
  constructor
  · rw [h1, h2]
    simp [expectedFiles, chunkCount, h3]
  · rw [h1, h2, expectedFiles, h3]
    rfl

/-- Witness for C4: five records with `linesPerChunk = 2` produce three
chunks `step/log.0`, `step/log.1`, `step/log.2` holding the serialized
records with sequence numbers `{0,1}`, `{2,3}`, `{4}`. -/
theorem chunk_rotation_witness :
    (runStepSaver 2 "step" [⟨1, "a", "step"⟩, ⟨2, "b", "step"⟩, ⟨3, "c", "step"⟩,
      ⟨4, "d", "step"⟩, ⟨5, "e", "step"⟩]).files.length = 3 ∧
    (runStepSaver 2 "step" [⟨1, "a", "step"⟩, ⟨2, "b", "step"⟩, ⟨3, "c", "step"⟩,
      ⟨4, "d", "step"⟩, ⟨5, "e", "step"⟩]).files =
      [⟨"step/log.0", [encodeStoredLogLine (writeLogStored 0 ⟨1, "a", "step"⟩),
          encodeStoredLogLine (writeLogStored 1 ⟨2, "b", "step"⟩)]⟩,
       ⟨"step/log.1", [encodeStoredLogLine (writeLogStored 2 ⟨3, "c", "step"⟩),
          encodeStoredLogLine (writeLogStored 3 ⟨4, "d", "step"⟩)]⟩,
       ⟨"step/log.2", [encodeStoredLogLine (writeLogStored 4 ⟨5, "e", "step"⟩)]⟩] := by
  have h := chunk_rotation 2 "step" [⟨1, "a", "step"⟩, ⟨2, "b", "step"⟩,
    ⟨3, "c", "step"⟩, ⟨4, "d", "step"⟩, ⟨5, "e", "step"⟩] (by decide)
  refine ⟨by rw [h.1]; decide, ?_⟩
  rw [h.2]
  decide

/-- C3 counterexample: for a concrete record written through the rotation
path, the bytes appended to the chunk contain the step-name field
`"s":"step1"` and differ from the three-field `{t,m,n}` object the spec
describes. -/
theorem stored_line_has_step_field :
    (((runStepSaver 1000 "step1" [⟨2345, "TestLine2", "step1"⟩]).files.getD 0
        ⟨"", []⟩).content.getD 0 "") ≠
      specEncodeStoredLine (writeLogStored 0 ⟨2345, "TestLine2", "step1"⟩) ∧
    strOccursIn "\"s\":\"step1\""
      (((runStepSaver 1000 "step1" [⟨2345, "TestLine2", "step1"⟩]).files.getD 0
        ⟨"", []⟩).content.getD 0 "") = true := by
  decide

/-- C3 (amended): every line persisted into a chunk is the newline-delimited
JSON serialization of the four fields t (timestamp), m (message), n (per-step
sequence number) and s (step name) of its record — the step name is repeated
in every stored line, in addition to being implied by the destination path. -/
theorem stored_lines_include_step_name (L : Nat) (name : String) (rs : List logLine)
    (hL : 0 < L) :
    ∀ f ∈ (runStepSaver L name rs).files, ∀ e ∈ f.content,
      ∃ k, k < rs.length ∧
        e = encodeStoredLogLine (writeLogStored k (rs.getD k ⟨0, "", ""⟩)) := by
  intro f hf e he
  rw [runStepSaver_eq_runRaw, runRaw_files L hL, expectedFiles] at hf
  obtain ⟨i, _, hfe⟩ := List.mem_map.mp hf
  rw [← hfe] at he
  have he2 : e ∈ encodedRecords rs :=
    List.drop_subset _ _ (List.take_subset _ _ he)
  rw [encodedRecords] at he2
  obtain ⟨k, hk, hke⟩ := List.mem_map.mp he2
  exact ⟨k, List.mem_range.mp hk, hke.symm⟩

/-- Witness for C3 (amended) at a one-record stream: the single stored line
is the four-field serialization of record 0. -/
theorem stored_lines_include_step_name_witness :
    ∃ k, k < ([⟨1, "x", "s"⟩] : List logLine).length ∧
      encodeStoredLogLine (writeLogStored 0 ⟨1, "x", "s"⟩) =
        encodeStoredLogLine (writeLogStored k
          (([⟨1, "x", "s"⟩] : List logLine).getD k ⟨0, "", ""⟩)) :=
  stored_lines_include_step_name 1 "s" [⟨1, "x", "s"⟩] (by decide)
    ⟨"s/log.0", [encodeStoredLogLine (writeLogStored 0 ⟨1, "x", "s"⟩)]⟩
    (by decide) (encodeStoredLogLine (writeLogStored 0 ⟨1, "x", "s"⟩)) (by decide)

end LogService
